import Mathlib

/-!
Verification of the par6 Wordle-golf backend (`backend/src`).

This file is a shallow embedding of the storage layer of the repository:
`models.py` (scoring function and data model), `storage.py` (in-memory
storage) and `readable_dynamodb_storage.py` (DynamoDB storage; the
authoritative, most complete variant, whose operations are embedded here).

Modelling conventions:
* `puzzle_date` is an ISO `YYYY-MM-DD` string in the source, compared
  lexicographically; lexicographic order on equal-length digit strings is
  day-number order, so dates are embedded as `Nat` day numbers and the
  string comparisons `<=`, `>=`, `between` become `Nat` comparisons.
* timestamps (`created_at`, `updated_at`, `ended_at`, ...) are `Nat` ticks;
  `datetime.utcnow()` is passed in explicitly as a `now` argument.
* `uuid.uuid4()` for score ids is embedded as a fresh-id counter `nextId`
  carried in the store (the source relies on uuid4 uniqueness); tournament
  ids are plain strings since the claims never create tournaments.
* DynamoDB tables are association lists; `put_item` replaces the first item
  with the same primary key or appends, `get_item`/`query` return matching
  items in table order.  The tournaments table holds both main tournament
  records and participant bookkeeping records (items whose composite key is
  `"{tid}#participant#{uid}"`); the two are distinguished structurally by a
  constructor, which is faithful because main tournament ids are uuids and
  never contain the `#participant#` marker.
* Python exceptions (`ValueError`, `PermissionError`) become `Except Err`,
  one `Err` constructor per distinct raise site named after the error
  taxonomy of the design.
-/

/-- `Status` enum from `models.py`. -/
inductive Status where
  | solved
  | dnf
  deriving DecidableEq, Repr

/-- `ScoreType` enum from `models.py`: `REGULAR` user-submitted, `PENALTY`
auto-assigned. -/
inductive ScoreType where
  | regular
  | penalty
  deriving DecidableEq, Repr

/-- `TournamentStatus` enum from `models.py`. -/
inductive TournamentStatus where
  | active
  | ended
  | archived
  deriving DecidableEq, Repr

/-- Error taxonomy: each constructor corresponds to one `raise` site in the
source (`ValueError`/`PermissionError` with a distinguishing message). -/
inductive Err where
  | invalidScoreInput
  | notFound
  | ambiguousCode
  | forbidden
  | alreadyEnded
  | stillActive
  | notParticipant
  deriving DecidableEq, Repr

/-- `Score` model from `models.py`. -/
structure Score where
  score_id : Nat
  user_id : String
  puzzle_date : Nat
  status : Status
  guesses_used : Option Nat
  golf_score : Int
  source_text : Option String
  score_type : ScoreType
  created_at : Nat
  updated_at : Nat
  deriving DecidableEq, Repr

/-- `User` model from `models.py` (fields the storage layer reads). -/
structure User where
  user_id : String
  handle : String
  deriving DecidableEq, Repr

/-- `Tournament` model from `models.py`, plus the `deleted_at` attribute that
`delete_tournament` writes onto the stored item. -/
structure Tournament where
  tournament_id : String
  name : String
  start_date : Nat
  end_date : Nat
  duration_days : Nat
  created_by : String
  participants : List String
  created_at : Nat
  is_active : Bool
  status : TournamentStatus
  tournament_type : String
  ended_at : Option Nat
  winner_user_id : Option String
  deleted_at : Option Nat
  deriving DecidableEq, Repr

/-- One item of the DynamoDB tournaments table: either a main tournament
record or a participant bookkeeping record
(`{'tournament_id': f"{tid}#participant#{uid}", 'participant_id': uid,
'joined_at': ...}`). -/
inductive TItem where
  | main (t : Tournament)
  | part (tournament_id : String) (participant_id : String) (joined_at : Nat)
  deriving DecidableEq, Repr

/-- The persistent state: users table, scores table, tournaments table and
the fresh-id counter standing in for uuid4. -/
structure DB where
  users : List User
  scores : List Score
  titems : List TItem
  nextId : Nat
  deriving DecidableEq, Repr

/-- `TournamentStanding` model from `models.py` (computed, never stored). -/
structure TournamentStanding where
  user_id : String
  handle : String
  total_score : Int
  completed_days : Nat
  position : Nat
  is_current_user : Bool
  deriving DecidableEq, Repr

/-- `TournamentSummary` model from `models.py`. -/
structure TournamentSummary where
  tournament_id : String
  tournament : Tournament
  standings : List TournamentStanding
  user_participating : Bool
  deriving DecidableEq, Repr

/-- `TournamentFinalResults` model from `models.py`. -/
structure TournamentFinalResults where
  tournament_id : String
  tournament : Tournament
  winner : Option TournamentStanding
  final_standings : List TournamentStanding
  ended_at : Nat
  total_participants : Nat
  completed_days : Nat
  deriving DecidableEq, Repr

/-- `calculate_golf_score` from `models.py`.  `guesses_used` is embedded as
`Option Nat`: the Python value is an optional int that the mapping lookup
rejects whenever it is not one of 1..6, which a `Nat` embedding preserves
(non-positive ints fail exactly like 0 does). -/
def calculate_golf_score (status : Status) (guesses_used : Option Nat)
    (is_penalty : Bool) : Except String Int :=
  if is_penalty then .ok 8
  else if status = Status.dnf then .ok 8
  else
    match guesses_used with
    | none => .error "guesses_used required for solved status"
    | some 1 => .ok (-3)
    | some 2 => .ok (-2)
    | some 3 => .ok (-1)
    | some 4 => .ok 0
    | some 5 => .ok 1
    | some 6 => .ok 2
    | some _ => .error "Invalid guesses_used"

/-- The DynamoDB `UserDateIndex` query
`Key('user_id').eq(u) & Key('puzzle_date').eq(d)` over the scores table. -/
def queryUserDate (scores : List Score) (u : String) (d : Nat) : List Score :=
  scores.filter fun s => decide (s.user_id = u ∧ s.puzzle_date = d)

/-- DynamoDB `put_item` on the scores table: the table is keyed by
`score_id`, so a put replaces the item with the same key (modelled as the
first occurrence) or inserts a new item. -/
def putScore : List Score → Score → List Score
  | [], s => [s]
  | t :: ts, s => if t.score_id = s.score_id then s :: ts else t :: putScore ts s

/-- Validation helper: the Python condition
`guesses_used is None or guesses_used < 1 or guesses_used > 6` from
`upsert_score`. -/
def badGuessesForSolved : Option Nat → Bool
  | none => true
  | some n => decide (n < 1) || decide (6 < n)

/-- `ReadableDynamoDBStorage.upsert_score`: validate the status/guesses
combination, compute the golf score, overwrite the existing score for
(user, date) keeping its `score_id` and `created_at`, or create a new one.
(`storage.py`'s `InMemoryStorage.upsert_score` implements the same
overwrite-in-place semantics through its `user_date_scores` index.) -/
def upsert_score (db : DB) (u : String) (d : Nat) (st : Status)
    (g : Option Nat) (src : Option String) (stype : ScoreType) (now : Nat) :
    Except Err (DB × Score) :=
  if st = Status.solved ∧ badGuessesForSolved g then .error .invalidScoreInput
  else if st = Status.dnf ∧ g ≠ none then .error .invalidScoreInput
  else
    match calculate_golf_score st g (decide (stype = ScoreType.penalty)) with
    | .error _ => .error .invalidScoreInput
    | .ok golf =>
      match (queryUserDate db.scores u d).head? with
      | some e =>
        let s : Score :=
          { score_id := e.score_id, user_id := u, puzzle_date := d,
            status := st, guesses_used := g, golf_score := golf,
            source_text := src, score_type := stype,
            created_at := e.created_at, updated_at := now }
        .ok ({ db with scores := putScore db.scores s }, s)
      | none =>
        let s : Score :=
          { score_id := db.nextId, user_id := u, puzzle_date := d,
            status := st, guesses_used := g, golf_score := golf,
            source_text := src, score_type := stype,
            created_at := now, updated_at := now }
        .ok ({ db with scores := putScore db.scores s,
                       nextId := db.nextId + 1 }, s)

/-- The penalty score record `insert_penalty_score` builds for a user and
date at time `now` under the fresh key `pid`: `status=DNF`,
`golf_score=8` (quad bogey), `score_type=PENALTY`. -/
def mkPenalty (u : String) (d now pid : Nat) : Score :=
  { score_id := pid, user_id := u, puzzle_date := d, status := Status.dnf,
    guesses_used := none, golf_score := 8,
    source_text := some "Busy Bunker - Missed Day",
    score_type := ScoreType.penalty, created_at := now, updated_at := now }

/-- `ReadableDynamoDBStorage.insert_penalty_score`: insert a DNF penalty
score (golf 8) for (user, date) only when no score exists yet; no-op
returning `none` otherwise. -/
def insert_penalty_score (db : DB) (u : String) (d : Nat) (now : Nat) :
    DB × Option Score :=
  if (queryUserDate db.scores u d).isEmpty then
    ({ db with scores := putScore db.scores (mkPenalty u d now db.nextId),
               nextId := db.nextId + 1 }, some (mkPenalty u d now db.nextId))
  else (db, none)

/-- `ReadableDynamoDBStorage.get_active_users`: scan the scores table for
items with `puzzle_date >= cutoff` where
`cutoff = (datetime.utcnow() - timedelta(days=days_back))` — the window is
anchored at the wall-clock date `nowDate`, not at any puzzle date. The
Python function builds a `set` of user ids; membership is what matters, so
the set is embedded as the deduplicated list of matching user ids. -/
def get_active_users (db : DB) (nowDate : Nat) (days_back : Nat := 7) :
    List String :=
  ((db.scores.filter fun s => decide (nowDate - days_back ≤ s.puzzle_date)).map
    (·.user_id)).dedup

/-- One iteration of the `apply_daily_penalties` loop: if the user has no
score for the date, insert a penalty and count it. -/
def penaltyStep (d now : Nat) (acc : DB × Nat) (u : String) : DB × Nat :=
  if (queryUserDate acc.1.scores u d).isEmpty then
    ((insert_penalty_score acc.1 u d now).1, acc.2 + 1)
  else acc

/-- `ReadableDynamoDBStorage.apply_daily_penalties`: for every user active in
the trailing 7-day window anchored at the current date `nowDate`, insert a
penalty for `d` when the user has no score for `d`; return the count. -/
def apply_daily_penalties (db : DB) (d : Nat) (nowDate now : Nat) : DB × Nat :=
  (get_active_users db nowDate 7).foldl (penaltyStep d now) (db, 0)

/-- Modelled from the spec (section 4.6, step 1): the claimed "active user"
set for `apply_daily_penalties(date)` — every user with at least one ledger
entry with `puzzle_date >= date - 7 days`.  This definition follows the
spec's words (the window is anchored at the *argument* date) and is compared
against `get_active_users`, which anchors the window at the invocation
date. -/
def activeUsersSpec (db : DB) (d : Nat) : List String :=
  ((db.scores.filter fun s => decide (d - 7 ≤ s.puzzle_date)).map
    (·.user_id)).dedup

/-- The main tournament records of the tournaments table (in table order);
participant bookkeeping records are not main records. -/
def mainTournaments (items : List TItem) : List Tournament :=
  items.filterMap fun it =>
    match it with
    | .main t => some t
    | .part _ _ _ => none

/-- DynamoDB `get_item(Key={'tournament_id': tid})` on the tournaments
table: the first main record whose id is `tid` (table keys are unique, so
"first" is faithful). -/
def findMainT (items : List TItem) (tid : String) : Option Tournament :=
  ((mainTournaments items).filter fun t => decide (t.tournament_id = tid)).head?

/-- DynamoDB `update_item(Key={'tournament_id': tid}, ...)`: rewrite the
main record with key `tid` by `f`. -/
def updateMainT (items : List TItem) (tid : String) (f : Tournament → Tournament) :
    List TItem :=
  match items with
  | [] => []
  | .main t :: rest =>
    if t.tournament_id = tid then .main (f t) :: rest
    else .main t :: updateMainT rest tid f
  | .part a b c :: rest => .part a b c :: updateMainT rest tid f

/-- DynamoDB `put_item` of a participant bookkeeping record: replaces the
record with the same composite key `"{tid}#participant#{uid}"` or appends. -/
def putPart (items : List TItem) (tid uid : String) (now : Nat) : List TItem :=
  match items with
  | [] => [.part tid uid now]
  | .part a b c :: rest =>
    if a = tid ∧ b = uid then .part tid uid now :: rest
    else .part a b c :: putPart rest tid uid now
  | .main t :: rest => .main t :: putPart rest tid uid now

/-- The scores of one user inside a tournament's date window, i.e. the
`UserDateIndex` query `puzzle_date.between(start_date, end_date)` used by
`_calculate_tournament_standings` (both storage variants filter the same
way: `start_date <= score.puzzle_date <= end_date`). -/
def windowScores (scores : List Score) (u : String) (sd ed : Nat) : List Score :=
  scores.filter fun s =>
    decide (s.user_id = u ∧ sd ≤ s.puzzle_date ∧ s.puzzle_date ≤ ed)

/-- DynamoDB `get_item` on the users table. -/
def findUser (users : List User) (u : String) : Option User :=
  (users.filter fun x => decide (x.user_id = u)).head?

/-- One entry of the `user_stats` dict built by
`_calculate_tournament_standings`. -/
structure StatRow where
  user_id : String
  handle : String
  total_score : Int
  completed_days : Nat
  deriving DecidableEq, Repr

/-- The `user_stats` accumulation loop of `_calculate_tournament_standings`:
participants without a user record are skipped; for the rest, sum
`golf_score` and count entries over the window.  The Python dict is keyed by
user id in insertion order; for duplicate-free participant lists (the only
lists `join` produces, since it checks membership first) this list is the
dict item list. -/
def participantStats (db : DB) (sd ed : Nat) : List String → List StatRow
  | [] => []
  | u :: us =>
    match findUser db.users u with
    | none => participantStats db sd ed us
    | some usr =>
      { user_id := u, handle := usr.handle,
        total_score := ((windowScores db.scores u sd ed).map (·.golf_score)).sum,
        completed_days := (windowScores db.scores u sd ed).length }
        :: participantStats db sd ed us

/-- The sort key relation of
`sorted(user_stats.items(), key=lambda x: (total_score, -completed_days))`:
ascending total, then descending completed days.  Python's `sorted` is a
stable sort, as is `List.insertionSort` with this total preorder. -/
def statKeyLe (a b : StatRow) : Prop :=
  a.total_score < b.total_score ∨
    (a.total_score = b.total_score ∧ b.completed_days ≤ a.completed_days)

instance : DecidableRel statKeyLe := fun a b => by
  unfold statKeyLe; infer_instance

instance : IsTotal StatRow statKeyLe :=
  ⟨by intro a b; unfold statKeyLe; omega⟩

instance : IsTrans StatRow statKeyLe :=
  ⟨by intro a b c hab hbc; unfold statKeyLe at *; omega⟩

/-- The same ordering on finished standings rows (used to state sortedness
of the result). -/
def standLe (a b : TournamentStanding) : Prop :=
  a.total_score < b.total_score ∨
    (a.total_score = b.total_score ∧ b.completed_days ≤ a.completed_days)

/-- The `enumerate(sorted_users, 1)` loop: attach 1-based positions and the
`is_current_user` flag. -/
def withPositions (current : String) : Nat → List StatRow → List TournamentStanding
  | _, [] => []
  | pos, r :: rs =>
    { user_id := r.user_id, handle := r.handle, total_score := r.total_score,
      completed_days := r.completed_days, position := pos,
      is_current_user := decide (r.user_id = current) }
      :: withPositions current (pos + 1) rs

/-- Projection back to the sort rows (forgetting position and flag). -/
def toStat (s : TournamentStanding) : StatRow :=
  { user_id := s.user_id, handle := s.handle, total_score := s.total_score,
    completed_days := s.completed_days }

/-- `_calculate_tournament_standings` (identical algorithm in
`storage.py` and `readable_dynamodb_storage.py`): look up the tournament,
aggregate each participant's window scores, sort by
`(total_score, -completed_days)` and attach 1-based positions. -/
def calculate_tournament_standings (db : DB) (tid current : String) :
    List TournamentStanding :=
  match findMainT db.titems tid with
  | none => []
  | some t =>
    withPositions current 1
      (List.insertionSort statKeyLe
        (participantStats db t.start_date t.end_date t.participants))

/-- `ReadableDynamoDBStorage.end_tournament`: creator-only, fails when
already inactive; computes final standings, stores
`status=ENDED, is_active=false, ended_at=now` and — only when there is a
winner — `winner_user_id`; returns the final results (whose tournament
object always carries `winner.user_id if winner else None`). -/
def end_tournament (db : DB) (tid uid : String) (now : Nat) :
    Except Err (DB × TournamentFinalResults) :=
  match findMainT db.titems tid with
  | none => .error .notFound
  | some t =>
    if t.created_by ≠ uid then .error .forbidden
    else if t.is_active = false then .error .alreadyEnded
    else
      let standings := calculate_tournament_standings db tid uid
      let winner := standings.head?
      let storedT : Tournament :=
        { t with status := TournamentStatus.ended, is_active := false,
                 ended_at := some now,
                 winner_user_id :=
                   match winner with
                   | some w => some w.user_id
                   | none => t.winner_user_id }
      let returnedT : Tournament :=
        { t with status := TournamentStatus.ended, is_active := false,
                 ended_at := some now,
                 winner_user_id := winner.map (·.user_id) }
      .ok ({ db with titems := updateMainT db.titems tid fun _ => storedT },
           { tournament_id := tid, tournament := returnedT, winner := winner,
             final_standings := standings, ended_at := now,
             total_participants := t.participants.length,
             completed_days := t.duration_days })

/-- `ReadableDynamoDBStorage.get_tournament_final_results`: fails while
`is_active` is true, otherwise recomputes standings live and reports them
with the persisted tournament record; `ended_at` falls back to the current
time when the record has none. -/
def get_tournament_final_results (db : DB) (tid : String) (now : Nat) :
    Except Err TournamentFinalResults :=
  match findMainT db.titems tid with
  | none => .error .notFound
  | some t =>
    if t.is_active = true then .error .stillActive
    else
      let standings := calculate_tournament_standings db tid t.created_by
      .ok { tournament_id := tid, tournament := t, winner := standings.head?,
            final_standings := standings, ended_at := t.ended_at.getD now,
            total_participants := t.participants.length,
            completed_days := t.duration_days }

/-- `ReadableDynamoDBStorage.delete_tournament`: creator-only soft delete —
sets `is_active=false` and `deleted_at`, leaving `status` and `ended_at`
untouched. -/
def delete_tournament (db : DB) (tid uid : String) (now : Nat) :
    Except Err DB :=
  match findMainT db.titems tid with
  | none => .error .notFound
  | some t =>
    if t.created_by ≠ uid then .error .forbidden
    else
      .ok { db with titems := updateMainT db.titems tid fun x =>
              { x with is_active := false, deleted_at := some now } }

/-- Build one `TournamentSummary` the way `get_tournaments` does. -/
def mkUserSummary (db : DB) (uid : String) (t : Tournament) : TournamentSummary :=
  { tournament_id := t.tournament_id, tournament := t,
    standings := calculate_tournament_standings db t.tournament_id uid,
    user_participating := true }

/-- `ReadableDynamoDBStorage.get_tournaments` (list for user): query the
`ParticipantIndex` for the user's participant bookkeeping records, fetch
each main tournament record, skip records whose tournament is missing and
skip soft-deleted (`is_active=false`) tournaments. -/
def get_tournaments (db : DB) (uid : String) : List TournamentSummary :=
  ((db.titems.filterMap fun it =>
      match it with
      | .part tid pid _ => if pid = uid then some tid else none
      | .main _ => none).filterMap fun tid =>
    match findMainT db.titems tid with
    | none => none
    | some t => if t.is_active then some (mkUserSummary db uid t) else none)

/-- Build one `TournamentSummary` the way the public listing/search do
(standings computed with the creator as viewer, `user_participating`
false). -/
def mkPublicSummary (db : DB) (t : Tournament) : TournamentSummary :=
  { tournament_id := t.tournament_id, tournament := t,
    standings := calculate_tournament_standings db t.tournament_id t.created_by,
    user_participating := false }

/-- `ReadableDynamoDBStorage.get_public_tournaments`: scan for main records
with `tournament_type == 'public'` (excluding participant bookkeeping
records via `~contains('#participant#')`), up to `limit`.  There is no
`is_active` condition in the scan filter. -/
def get_public_tournaments (db : DB) (limit : Nat := 20) : List TournamentSummary :=
  ((db.titems.filterMap fun it =>
      match it with
      | .main t => if t.tournament_type = "public" then some t else none
      | .part _ _ _ => none).take limit).map (mkPublicSummary db)

/-- Substring occurrence on character lists (DynamoDB
`Attr('name').contains(query)`). -/
def seqContains (pat : List Char) : List Char → Bool
  | [] => pat.isEmpty
  | c :: rest => pat.isPrefixOf (c :: rest) || seqContains pat rest

/-- Substring occurrence on strings. -/
def strContains (text pat : String) : Bool :=
  seqContains pat.toList text.toList

/-- `ReadableDynamoDBStorage.search_public_tournaments`: like
`get_public_tournaments` with an additional `name contains query` scan
condition; again no `is_active` condition. -/
def search_public_tournaments (db : DB) (query : String) (limit : Nat := 20) :
    List TournamentSummary :=
  ((db.titems.filterMap fun it =>
      match it with
      | .main t =>
        if t.tournament_type = "public" ∧ strContains t.name query then some t
        else none
      | .part _ _ _ => none).take limit).map (mkPublicSummary db)

/-- ASCII lowercasing of a join code (`short_id.lower()` in the source),
defined over the character list so that it evaluates in the kernel. -/
def lowerChars (s : String) : List Char := s.toList.map Char.toLower

/-- DynamoDB `begins_with` on the `tournament_id` attribute, over character
lists. -/
def idStartsWith (tid : String) (pre : List Char) : Bool :=
  pre.isPrefixOf tid.toList

/-- The ids the short-code scan of `_find_tournament_by_short_id` collects:
main records whose `tournament_id` begins with the lowercased code
(participant bookkeeping records are excluded by the scan filter), limited
to 5 items. -/
def shortIdMatches (items : List TItem) (code : String) : List String :=
  ((items.filterMap fun it =>
      match it with
      | .main t =>
        if idStartsWith t.tournament_id (lowerChars code) then some t.tournament_id
        else none
      | .part _ _ _ => none).take 5)

/-- `ReadableDynamoDBStorage._find_tournament_by_short_id`: exactly one
match resolves, more than one raises the ambiguous-code error, zero returns
`none`.  The scan has no `is_active`/deletedness condition. -/
def find_tournament_by_short_id (db : DB) (code : String) :
    Except Err (Option String) :=
  match shortIdMatches db.titems code with
  | [x] => .ok (some x)
  | [] => .ok none
  | _ => .error .ambiguousCode

/-- `ReadableDynamoDBStorage.join_tournament`: a reference of at most 8
characters is resolved through the short-code scan (failing with the
not-found error when nothing matches); then the tournament record is
fetched, and the user is appended to `participants` (main record updated
and a participant bookkeeping record written) unless already present, in
which case nothing changes.  No check of `is_active`, `status` or dates is
performed.  (`storage.py`'s `InMemoryStorage.join_tournament` is the
full-id-only special case with the same membership logic.) -/
def join_tournament (db : DB) (ref uid : String) (now : Nat) :
    Except Err (DB × Tournament) :=
  let joinFull : String → Except Err (DB × Tournament) := fun tid =>
    match findMainT db.titems tid with
    | none => .error .notFound
    | some t =>
      if uid ∈ t.participants then .ok (db, t)
      else
        let parts := t.participants ++ [uid]
        let items :=
          putPart (updateMainT db.titems tid fun x => { x with participants := parts })
            tid uid now
        .ok ({ db with titems := items }, { t with participants := parts })
  if ref.length ≤ 8 then
    match find_tournament_by_short_id db ref with
    | .error e => .error e
    | .ok none => .error .notFound
    | .ok (some full) => joinFull full
  else joinFull ref

/-- Two scores occupying the same ledger slot (same user and puzzle date). -/
def sameSlot (a b : Score) : Prop :=
  a.user_id = b.user_id ∧ a.puzzle_date = b.puzzle_date

instance (a b : Score) : Decidable (sameSlot a b) := by
  unfold sameSlot; infer_instance

/-- The ledger-uniqueness invariant: no two stored scores share a
(user, date) slot. -/
def UniqueUD (l : List Score) : Prop :=
  l.Pairwise fun a b => ¬ sameSlot a b

/-- Well-formedness of the scores table: slot uniqueness, key uniqueness,
and freshness of the id counter (uuid4 never collides with a stored id). -/
def ScoresWF (db : DB) : Prop :=
  UniqueUD db.scores ∧ (db.scores.map (·.score_id)).Nodup ∧
    ∀ s ∈ db.scores, s.score_id < db.nextId

/-- One request of an `upsert_score` call sequence. -/
structure UpsertReq where
  user_id : String
  puzzle_date : Nat
  status : Status
  guesses_used : Option Nat
  source_text : Option String
  score_type : ScoreType
  now : Nat

/-- Run one upsert request against the store; a validation failure leaves
the store unchanged (the Python function raises before writing). -/
def applyUpsert (db : DB) (r : UpsertReq) : DB :=
  match upsert_score db r.user_id r.puzzle_date r.status r.guesses_used
      r.source_text r.score_type r.now with
  | .ok (db', _) => db'
  | .error _ => db

/-- The empty store. -/
def initDB : DB := { users := [], scores := [], titems := [], nextId := 0 }

/-! Concrete fixtures used by witnesses and counterexamples. -/

/-- Fixture user. -/
def exUserA : User := { user_id := "ua", handle := "alice" }

/-- Fixture user. -/
def exUserB : User := { user_id := "ub", handle := "bob" }

/-- Fixture: an active 9-day tournament with two participants. -/
def exT1 : Tournament :=
  { tournament_id := "t1", name := "Spring Open", start_date := 10,
    end_date := 18, duration_days := 9, created_by := "ua",
    participants := ["ua", "ub"], created_at := 5, is_active := true,
    status := TournamentStatus.active, tournament_type := "private",
    ended_at := none, winner_user_id := none, deleted_at := none }

/-- Fixture: one in-window score of user `ua`. -/
def exScoreA : Score :=
  { score_id := 0, user_id := "ua", puzzle_date := 11, status := Status.solved,
    guesses_used := some 3, golf_score := -1, source_text := none,
    score_type := ScoreType.regular, created_at := 6, updated_at := 6 }

/-- Fixture store for the standings and lifecycle witnesses. -/
def exDB1 : DB :=
  { users := [exUserA, exUserB], scores := [exScoreA],
    titems := [TItem.main exT1, TItem.part "t1" "ua" 5, TItem.part "t1" "ub" 6],
    nextId := 1 }

/-- Fixture: an active tournament that will be soft-deleted. -/
def exT2 : Tournament :=
  { tournament_id := "t2", name := "Club Night", start_date := 1, end_date := 9,
    duration_days := 9, created_by := "ua", participants := ["ua"],
    created_at := 0, is_active := true, status := TournamentStatus.active,
    tournament_type := "private", ended_at := none, winner_user_id := none,
    deleted_at := none }

/-- Fixture store holding only `exT2`. -/
def exDB2 : DB :=
  { users := [exUserA], scores := [], titems := [TItem.main exT2], nextId := 0 }

/-- `exT2` after the soft delete at time 30. -/
def exT2del : Tournament := { exT2 with is_active := false, deleted_at := some 30 }

/-- `exDB2` after the soft delete at time 30. -/
def exDB2del : DB := { exDB2 with titems := [TItem.main exT2del] }

/-- Fixture: a soft-deleted *public* tournament (is_active false, never
ended). -/
def exTPub : Tournament :=
  { tournament_id := "p1", name := "Summer Cup", start_date := 1, end_date := 9,
    duration_days := 9, created_by := "ua", participants := ["ua"],
    created_at := 0, is_active := false, status := TournamentStatus.active,
    tournament_type := "public", ended_at := none, winner_user_id := none,
    deleted_at := some 9 }

/-- Fixture store for the public-listing counterexample. -/
def exDB3 : DB :=
  { users := [exUserA], scores := [],
    titems := [TItem.main exTPub, TItem.part "p1" "ua" 2], nextId := 0 }

/-- Fixture: a soft-deleted private tournament whose id starts with
`abc`. -/
def exTDel : Tournament :=
  { tournament_id := "abcdefgh-1111", name := "Gone", start_date := 1,
    end_date := 9, duration_days := 9, created_by := "ua",
    participants := ["ua"], created_at := 0, is_active := false,
    status := TournamentStatus.active, tournament_type := "private",
    ended_at := none, winner_user_id := none, deleted_at := some 3 }

/-- Fixture store whose only tournament is the soft-deleted `exTDel`. -/
def exDB4 : DB :=
  { users := [exUserA], scores := [], titems := [TItem.main exTDel], nextId := 0 }

/-- Fixture: an ended, inactive tournament with a recorded winner. -/
def exTEnd : Tournament :=
  { tournament_id := "abcdefgh-2222", name := "Done", start_date := 1,
    end_date := 9, duration_days := 9, created_by := "ua",
    participants := ["ua"], created_at := 0, is_active := false,
    status := TournamentStatus.ended, tournament_type := "private",
    ended_at := some 20, winner_user_id := some "ua", deleted_at := none }

/-- Fixture store whose only tournament is the ended `exTEnd`. -/
def exDB5 : DB :=
  { users := [exUserA], scores := [], titems := [TItem.main exTEnd], nextId := 0 }

/-- Fixture: a single old score of `ua` at date 15. -/
def exScoreOld : Score :=
  { score_id := 0, user_id := "ua", puzzle_date := 15, status := Status.solved,
    guesses_used := some 4, golf_score := 0, source_text := none,
    score_type := ScoreType.regular, created_at := 15, updated_at := 15 }

/-- Fixture store for the penalty-batch claims. -/
def exDB6 : DB :=
  { users := [exUserA], scores := [exScoreOld], titems := [], nextId := 1 }

/-- The penalty score the batch inserts for `ua` on date 16 at time 17. -/
def exPenalty : Score :=
  { score_id := 1, user_id := "ua", puzzle_date := 16, status := Status.dnf,
    guesses_used := none, golf_score := 8,
    source_text := some "Busy Bunker - Missed Day",
    score_type := ScoreType.penalty, created_at := 17, updated_at := 17 }

/-- `exDB6` after `apply_daily_penalties` for date 16 at time 17. -/
def exDB6P : DB := { exDB6 with scores := [exScoreOld, exPenalty], nextId := 2 }

/-- The score created by the first upsert of the ledger witness. -/
def exScoreFirst : Score :=
  { score_id := 0, user_id := "ua", puzzle_date := 3, status := Status.solved,
    guesses_used := some 3, golf_score := -1, source_text := none,
    score_type := ScoreType.regular, created_at := 10, updated_at := 10 }

/-- The store after that first upsert. -/
def exDBu1 : DB := { users := [], scores := [exScoreFirst], titems := [], nextId := 1 }

/-- The score after the identical second upsert at time 20: same id and
`created_at`, fresh `updated_at`. -/
def exScoreSecond : Score := { exScoreFirst with updated_at := 20 }

/-- The store after the second upsert. -/
def exDBu2 : DB := { users := [], scores := [exScoreSecond], titems := [], nextId := 1 }

/-! Theorems. -/

/-- C2: the scoring function is the fixed mapping — `is_penalty=true` gives
8 regardless of the other inputs; DNF gives 8; SOLVED with
`guesses_used ∈ [1,6]` gives the mapping value `{1:-3, 2:-2, 3:-1, 4:0,
5:+1, 6:+2}`; SOLVED with `guesses_used` missing or outside 1..6 fails with
a validation error. -/
theorem golf_score_mapping :
    (∀ st g, calculate_golf_score st g true = .ok 8) ∧
    (∀ g, calculate_golf_score Status.dnf g false = .ok 8) ∧
    (calculate_golf_score Status.solved (some 1) false = .ok (-3) ∧
      calculate_golf_score Status.solved (some 2) false = .ok (-2) ∧
      calculate_golf_score Status.solved (some 3) false = .ok (-1) ∧
      calculate_golf_score Status.solved (some 4) false = .ok 0 ∧
      calculate_golf_score Status.solved (some 5) false = .ok 1 ∧
      calculate_golf_score Status.solved (some 6) false = .ok 2) ∧
    (∃ e, calculate_golf_score Status.solved none false = .error e) ∧
    (∀ n, n < 1 ∨ 6 < n →
      ∃ e, calculate_golf_score Status.solved (some n) false = .error e) := by
  refine ⟨?_, ?_, ⟨rfl, rfl, rfl, rfl, rfl, rfl⟩, ⟨_, rfl⟩, ?_⟩
  · intro st g
    rfl
  · intro g
    rfl
  · intro n h
    match n, h with
    | 0, _ => exact ⟨_, rfl⟩
    | 1, h | 2, h | 3, h | 4, h | 5, h | 6, h => omega
    | n + 7, _ => exact ⟨_, rfl⟩

/-- Witness for `golf_score_mapping` at the concrete out-of-range guess
count 7. -/
theorem golf_score_mapping_witness :
    (7 < 1 ∨ 6 < 7) ∧
      ∃ e, calculate_golf_score Status.solved (some 7) false = .error e :=
  ⟨by decide, golf_score_mapping.2.2.2.2 7 (by decide)⟩

/-- Membership in a `putScore` result comes from the new score or the old
table. -/
theorem mem_putScore {l : List Score} {s a : Score} (h : a ∈ putScore l s) :
    a = s ∨ a ∈ l := by
  induction l with
  | nil => simpa [putScore] using h
  | cons t ts ih =>
    unfold putScore at h
    by_cases hid : t.score_id = s.score_id
    · rw [if_pos hid] at h
      rcases List.mem_cons.mp h with h | h
      · exact Or.inl h
      · exact Or.inr (List.mem_cons_of_mem _ h)
    · rw [if_neg hid] at h
      rcases List.mem_cons.mp h with h | h
      · exact Or.inr (h ▸ List.mem_cons_self _ _)
      · rcases ih h with h | h
        · exact Or.inl h
        · exact Or.inr (List.mem_cons_of_mem _ h)

/-- With a key fresh for the table, `putScore` appends. -/
theorem putScore_of_fresh {l : List Score} {s : Score}
    (h : ∀ t ∈ l, t.score_id ≠ s.score_id) : putScore l s = l ++ [s] := by
  induction l with
  | nil => rfl
  | cons t ts ih =>
    unfold putScore
    rw [if_neg (h t (List.mem_cons_self t ts)),
      ih fun x hx => h x (List.mem_cons_of_mem _ hx)]
    rfl

/-- Overwriting the score of an occupied slot (same key, same slot as some
stored score) preserves slot uniqueness, keeps the key multiset, and leaves
exactly the new score in the slot. -/
theorem putScore_overwrite {l : List Score} {e s : Score}
    (hu : UniqueUD l) (hnd : (l.map (·.score_id)).Nodup)
    (he : e ∈ l) (hid : s.score_id = e.score_id)
    (huid : s.user_id = e.user_id) (hdate : s.puzzle_date = e.puzzle_date) :
    UniqueUD (putScore l s) ∧
      (putScore l s).map (·.score_id) = l.map (·.score_id) ∧
      queryUserDate (putScore l s) s.user_id s.puzzle_date = [s] := by
  induction l with
  | nil => cases he
  | cons t ts ih =>
    rw [UniqueUD, List.pairwise_cons] at hu
    obtain ⟨hhead, htail⟩ := hu
    rw [List.map_cons, List.nodup_cons] at hnd
    obtain ⟨hndh, hndt⟩ := hnd
    rcases List.mem_cons.mp he with rfl | he'
    · unfold putScore
      rw [if_pos hid.symm]
      refine ⟨?_, ?_, ?_⟩
      · rw [UniqueUD, List.pairwise_cons]
        refine ⟨fun b hb => ?_, htail⟩
        have hb' := hhead b hb
        unfold sameSlot at hb' ⊢
        rw [huid, hdate]
        exact hb'
      · simp [hid]
      · unfold queryUserDate
        rw [List.filter_cons_of_pos (by simp)]
        have hts0 : List.filter
            (fun b => decide (b.user_id = s.user_id ∧ b.puzzle_date = s.puzzle_date)) ts = [] := by
          rw [List.filter_eq_nil_iff]
          intro b hb hcon
          rw [decide_eq_true_eq] at hcon
          exact hhead b hb ⟨huid.symm.trans hcon.1.symm, hdate.symm.trans hcon.2.symm⟩
        rw [hts0]
    · have hts : t.score_id ≠ s.score_id := by
        intro hcontra
        apply hndh
        rw [hcontra, hid]
        exact List.mem_map_of_mem _ he'
      unfold putScore
      rw [if_neg hts]
      obtain ⟨ih1, ih2, ih3⟩ := ih htail hndt he'
      refine ⟨?_, ?_, ?_⟩
      · rw [UniqueUD, List.pairwise_cons]
        refine ⟨fun b hb => ?_, ih1⟩
        rcases mem_putScore hb with rfl | hb'
        · have hte := hhead e he'
          unfold sameSlot at hte ⊢
          rw [huid, hdate]
          exact hte
        · exact hhead b hb'
      · simp only [List.map_cons, ih2]
      · unfold queryUserDate at ih3 ⊢
        have hneg : ¬ (t.user_id = s.user_id ∧ t.puzzle_date = s.puzzle_date) :=
          fun hcon => hhead e he' ⟨hcon.1.trans huid, hcon.2.trans hdate⟩
        rw [List.filter_cons, if_neg (by simpa using hneg)]
        exact ih3

/-- Appending a score into an empty slot with a fresh key preserves the
invariants and fills the slot with exactly that score. -/
theorem append_fresh_WF {l : List Score} {s : Score}
    (hu : UniqueUD l) (hnd : (l.map (·.score_id)).Nodup)
    (hfresh : ∀ t ∈ l, t.score_id ≠ s.score_id)
    (hempty : queryUserDate l s.user_id s.puzzle_date = []) :
    UniqueUD (l ++ [s]) ∧ ((l ++ [s]).map (·.score_id)).Nodup ∧
      queryUserDate (l ++ [s]) s.user_id s.puzzle_date = [s] := by
  have hnomatch : ∀ b ∈ l,
      ¬ (b.user_id = s.user_id ∧ b.puzzle_date = s.puzzle_date) := by
    intro b hb
    have hfil := List.filter_eq_nil_iff.mp hempty b hb
    simpa using hfil
  refine ⟨?_, ?_, ?_⟩
  · rw [UniqueUD, List.pairwise_append]
    refine ⟨hu, List.pairwise_singleton _ _, ?_⟩
    intro a ha b hb
    rw [List.mem_singleton] at hb
    subst hb
    exact fun hcon => hnomatch a ha ⟨hcon.1, hcon.2⟩
  · rw [List.map_append, List.nodup_append]
    refine ⟨hnd, List.nodup_singleton _, ?_⟩
    intro x hx hxs
    simp only [List.map_cons, List.map_nil, List.mem_singleton] at hxs
    rw [List.mem_map] at hx
    obtain ⟨a, ha, rfl⟩ := hx
    exact hfresh a ha hxs
  · unfold queryUserDate at hempty ⊢
    rw [List.filter_append, hempty]
    simp

/-- `upsert_score` in the create branch (no existing score for the
slot). -/
theorem upsert_eq_fresh (db : DB) (u : String) (d : Nat) (st : Status)
    (g : Option Nat) (src : Option String) (stype : ScoreType) (now : Nat)
    (golf : Int)
    (hv1 : ¬ (st = Status.solved ∧ badGuessesForSolved g = true))
    (hv2 : ¬ (st = Status.dnf ∧ g ≠ none))
    (hc : calculate_golf_score st g (decide (stype = ScoreType.penalty)) = .ok golf)
    (hq : queryUserDate db.scores u d = []) :
    upsert_score db u d st g src stype now =
      .ok ({ db with
             scores := putScore db.scores
               { score_id := db.nextId, user_id := u, puzzle_date := d,
                 status := st, guesses_used := g, golf_score := golf,
                 source_text := src, score_type := stype,
                 created_at := now, updated_at := now },
             nextId := db.nextId + 1 },
           { score_id := db.nextId, user_id := u, puzzle_date := d,
             status := st, guesses_used := g, golf_score := golf,
             source_text := src, score_type := stype,
             created_at := now, updated_at := now }) := by
  unfold upsert_score
  rw [if_neg hv1, if_neg hv2, hc, hq]
  rfl

/-- `upsert_score` in the overwrite branch (an existing score heads the
slot query). -/
theorem upsert_eq_overwrite (db : DB) (u : String) (d : Nat) (st : Status)
    (g : Option Nat) (src : Option String) (stype : ScoreType) (now : Nat)
    (golf : Int) (e : Score) (rest : List Score)
    (hv1 : ¬ (st = Status.solved ∧ badGuessesForSolved g = true))
    (hv2 : ¬ (st = Status.dnf ∧ g ≠ none))
    (hc : calculate_golf_score st g (decide (stype = ScoreType.penalty)) = .ok golf)
    (hq : queryUserDate db.scores u d = e :: rest) :
    upsert_score db u d st g src stype now =
      .ok ({ db with
             scores := putScore db.scores
               { score_id := e.score_id, user_id := u, puzzle_date := d,
                 status := st, guesses_used := g, golf_score := golf,
                 source_text := src, score_type := stype,
                 created_at := e.created_at, updated_at := now } },
           { score_id := e.score_id, user_id := u, puzzle_date := d,
             status := st, guesses_used := g, golf_score := golf,
             source_text := src, score_type := stype,
             created_at := e.created_at, updated_at := now }) := by
  unfold upsert_score
  rw [if_neg hv1, if_neg hv2, hc, hq]
  rfl

/-- A successful upsert preserves well-formedness, leaves exactly the
returned score in the requested slot, and keeps the original key and
creation time when it overwrites. -/
theorem upsert_ok_inv {db : DB} {u : String} {d : Nat} {st : Status}
    {g : Option Nat} {src : Option String} {stype : ScoreType} {now : Nat}
    {db' : DB} {s' : Score} (hwf : ScoresWF db)
    (h : upsert_score db u d st g src stype now = .ok (db', s')) :
    ScoresWF db' ∧ queryUserDate db'.scores u d = [s'] ∧
      s'.user_id = u ∧ s'.puzzle_date = d ∧ s'.updated_at = now ∧
      ((queryUserDate db.scores u d = [] ∧ s'.created_at = now) ∨
        (∃ e rest, queryUserDate db.scores u d = e :: rest ∧
          s'.score_id = e.score_id ∧ s'.created_at = e.created_at)) := by
  obtain ⟨hu, hnd, hfr⟩ := hwf
  by_cases hv1 : st = Status.solved ∧ badGuessesForSolved g = true
  · rw [upsert_score, if_pos hv1] at h
    cases h
  by_cases hv2 : st = Status.dnf ∧ g ≠ none
  · rw [upsert_score, if_neg hv1, if_pos hv2] at h
    cases h
  cases hcalc : calculate_golf_score st g (decide (stype = ScoreType.penalty)) with
  | error msg =>
    rw [upsert_score, if_neg hv1, if_neg hv2, hcalc] at h
    cases h
  | ok golf =>
    cases hq : queryUserDate db.scores u d with
    | nil =>
      rw [upsert_eq_fresh db u d st g src stype now golf hv1 hv2 hcalc hq] at h
      simp only [Except.ok.injEq, Prod.mk.injEq] at h
      obtain ⟨hdb, hs⟩ := h
      subst hdb
      subst hs
      have hfresh : ∀ t ∈ db.scores, t.score_id ≠ db.nextId :=
        fun t ht => Nat.ne_of_lt (hfr t ht)
      refine ⟨⟨?_, ?_, ?_⟩, ?_, rfl, rfl, rfl, Or.inl ⟨rfl, rfl⟩⟩
      · show UniqueUD (putScore db.scores _)
        rw [putScore_of_fresh hfresh]
        exact (append_fresh_WF hu hnd hfresh hq).1
      · show ((putScore db.scores _).map (·.score_id)).Nodup
        rw [putScore_of_fresh hfresh]
        exact (append_fresh_WF hu hnd hfresh hq).2.1
      · show ∀ x ∈ putScore db.scores _, x.score_id < db.nextId + 1
        intro x hx
        rcases mem_putScore hx with rfl | hx'
        · exact Nat.lt_succ_self _
        · exact Nat.lt_succ_of_lt (hfr x hx')
      · show queryUserDate (putScore db.scores _) u d = _
        rw [putScore_of_fresh hfresh]
        exact (append_fresh_WF hu hnd hfresh hq).2.2
    | cons e rest =>
      have hemem : e ∈ db.scores ∧ (e.user_id = u ∧ e.puzzle_date = d) := by
        have h1 : e ∈ queryUserDate db.scores u d := by
          rw [hq]; exact List.mem_cons_self _ _
        have h2 := List.mem_filter.mp h1
        exact ⟨h2.1, by simpa using h2.2⟩
      rw [upsert_eq_overwrite db u d st g src stype now golf e rest
        hv1 hv2 hcalc hq] at h
      simp only [Except.ok.injEq, Prod.mk.injEq] at h
      obtain ⟨hdb, hs⟩ := h
      subst hdb
      subst hs
      have hput := @putScore_overwrite db.scores e
        { score_id := e.score_id, user_id := u, puzzle_date := d, status := st,
          guesses_used := g, golf_score := golf, source_text := src,
          score_type := stype, created_at := e.created_at, updated_at := now }
        hu hnd hemem.1 rfl hemem.2.1.symm hemem.2.2.symm
      refine ⟨⟨hput.1, ?_, ?_⟩, hput.2.2, rfl, rfl, rfl,
        Or.inr ⟨e, rest, rfl, rfl, rfl⟩⟩
      · show ((putScore db.scores _).map (·.score_id)).Nodup
        rw [hput.2.1]
        exact hnd
      · intro x hx
        rcases mem_putScore hx with rfl | hx'
        · exact hfr e hemem.1
        · exact hfr x hx'

/-- One upsert request (successful or rejected) preserves store
well-formedness. -/
theorem applyUpsert_WF {db : DB} (hwf : ScoresWF db) (r : UpsertReq) :
    ScoresWF (applyUpsert db r) := by
  unfold applyUpsert
  cases h : upsert_score db r.user_id r.puzzle_date r.status r.guesses_used
      r.source_text r.score_type r.now with
  | error e => exact hwf
  | ok p =>
    obtain ⟨db', s'⟩ := p
    exact (upsert_ok_inv hwf h).1

/-- Any sequence of upsert requests preserves store well-formedness. -/
theorem foldl_applyUpsert_WF (rs : List UpsertReq) :
    ∀ db : DB, ScoresWF db → ScoresWF (List.foldl applyUpsert db rs) := by
  induction rs with
  | nil => exact fun db h => h
  | cons r rs ih => exact fun db h => ih _ (applyUpsert_WF h r)

/-- The empty store is well-formed. -/
theorem initDB_WF : ScoresWF initDB :=
  ⟨List.Pairwise.nil, List.nodup_nil, by intro s hs; cases hs⟩

/-- A successful upsert implies the input passed validation. -/
theorem upsert_ok_valid {db : DB} {u : String} {d : Nat} {st : Status}
    {g : Option Nat} {src : Option String} {stype : ScoreType} {now : Nat}
    {db' : DB} {s' : Score}
    (h : upsert_score db u d st g src stype now = .ok (db', s')) :
    ¬ (st = Status.solved ∧ badGuessesForSolved g = true) ∧
      ¬ (st = Status.dnf ∧ g ≠ none) := by
  constructor
  · intro hv1
    rw [upsert_score, if_pos hv1] at h
    cases h
  · intro hv2
    by_cases hv1 : st = Status.solved ∧ badGuessesForSolved g = true
    · rw [upsert_score, if_pos hv1] at h
      cases h
    · rw [upsert_score, if_neg hv1, if_pos hv2] at h
      cases h

/-- Valid status/guesses combinations always score successfully,
whatever the penalty flag. -/
theorem calc_ok_of_valid (st : Status) (g : Option Nat) (b : Bool)
    (hv1 : ¬ (st = Status.solved ∧ badGuessesForSolved g = true))
    (hv2 : ¬ (st = Status.dnf ∧ g ≠ none)) :
    ∃ z, calculate_golf_score st g b = .ok z := by
  cases b with
  | true => exact ⟨8, rfl⟩
  | false =>
    cases st with
    | dnf =>
      have hg : g = none := by
        by_contra hg
        exact hv2 ⟨rfl, hg⟩
      subst hg
      exact ⟨8, rfl⟩
    | solved =>
      cases g with
      | none => exact absurd ⟨rfl, rfl⟩ hv1
      | some n =>
        have hbad : badGuessesForSolved (some n) = false := by
          cases hb : badGuessesForSolved (some n) with
          | false => rfl
          | true => exact absurd ⟨rfl, hb⟩ hv1
        unfold badGuessesForSolved at hbad
        simp only [Bool.or_eq_false_iff, decide_eq_false_iff_not, Nat.not_lt] at hbad
        have h1 : 1 ≤ n := hbad.1
        have h6 : n ≤ 6 := hbad.2
        interval_cases n
        · exact ⟨_, rfl⟩
        · exact ⟨_, rfl⟩
        · exact ⟨_, rfl⟩
        · exact ⟨_, rfl⟩
        · exact ⟨_, rfl⟩
        · exact ⟨_, rfl⟩

/-- C3: after any sequence of `upsert_score` calls at most one stored score
exists per (user, date); an upsert that finds an existing score overwrites
it in place keeping the original `score_id` and `created_at` and setting
`updated_at` to the call time; in particular two upserts with identical
(user, date, status, guesses) leave one stored score with unchanged
`score_id` and `created_at`. -/
theorem upsert_unique_idempotent
    (db : DB) (hwf : ScoresWF db)
    (u : String) (d : Nat) (st : Status) (g : Option Nat)
    (src src₂ : Option String) (stype stype₂ : ScoreType) (now now₂ : Nat)
    (rs : List UpsertReq) :
    UniqueUD (List.foldl applyUpsert initDB rs).scores ∧
    (∀ e rest db' s', queryUserDate db.scores u d = e :: rest →
      upsert_score db u d st g src stype now = .ok (db', s') →
      s'.score_id = e.score_id ∧ s'.created_at = e.created_at ∧
        s'.updated_at = now ∧ queryUserDate db'.scores u d = [s']) ∧
    (∀ db₁ s₁, upsert_score db u d st g src stype now = .ok (db₁, s₁) →
      ∃ db₂ s₂, upsert_score db₁ u d st g src₂ stype₂ now₂ = .ok (db₂, s₂) ∧
        s₂.score_id = s₁.score_id ∧ s₂.created_at = s₁.created_at ∧
        s₂.updated_at = now₂ ∧ queryUserDate db₂.scores u d = [s₂]) := by
  refine ⟨(foldl_applyUpsert_WF rs initDB initDB_WF).1, ?_, ?_⟩
  · intro e rest db' s' hq hok
    have inv := upsert_ok_inv hwf hok
    rcases inv.2.2.2.2.2 with ⟨hq0, _⟩ | ⟨e', rest', hq', hid, hcr⟩
    · rw [hq0] at hq
      cases hq
    · rw [hq'] at hq
      injection hq with he hrest
      subst he
      exact ⟨hid, hcr, inv.2.2.2.2.1, inv.2.1⟩
  · intro db₁ s₁ h1
    have inv1 := upsert_ok_inv hwf h1
    have hvs := upsert_ok_valid h1
    obtain ⟨golf₂, hc₂⟩ :=
      calc_ok_of_valid st g (decide (stype₂ = ScoreType.penalty)) hvs.1 hvs.2
    have h2 := upsert_eq_overwrite db₁ u d st g src₂ stype₂ now₂ golf₂ s₁ []
      hvs.1 hvs.2 hc₂ inv1.2.1
    exact ⟨_, _, h2, rfl, rfl, rfl, (upsert_ok_inv inv1.1 h2).2.1⟩

/-- Witness for `upsert_unique_idempotent`: two identical upserts of
(ua, date 3, SOLVED, 3 guesses) against the empty store leave one stored
score with the original key and creation time and a fresh update time. -/
theorem upsert_unique_idempotent_witness :
    ScoresWF initDB ∧
      queryUserDate exDBu2.scores "ua" 3 = [exScoreSecond] ∧
      exScoreSecond.score_id = exScoreFirst.score_id ∧
      exScoreSecond.created_at = exScoreFirst.created_at ∧
      exScoreSecond.updated_at = 20 := by
  have h := (upsert_unique_idempotent initDB initDB_WF "ua" 3 Status.solved
      (some 3) none none ScoreType.regular ScoreType.regular 10 20 []).2.2
      exDBu1 exScoreFirst (by rfl)
  obtain ⟨db₂, s₂, heq, hid, hcr, hup, hq⟩ := h
  have hcomp : upsert_score exDBu1 "ua" 3 Status.solved (some 3) none
      ScoreType.regular 20 = .ok (exDBu2, exScoreSecond) := by rfl
  rw [hcomp] at heq
  simp only [Except.ok.injEq, Prod.mk.injEq] at heq
  obtain ⟨hdb, hs⟩ := heq
  subst hdb
  subst hs
  exact ⟨initDB_WF, hq, hid, hcr, hup⟩

/-- `withPositions` only decorates: projecting back gives the sorted stat
rows. -/
theorem withPositions_map_toStat (c : String) :
    ∀ (n : Nat) (l : List StatRow), (withPositions c n l).map toStat = l := by
  intro n l
  induction l generalizing n with
  | nil => rfl
  | cons r rs ih => simp [withPositions, toStat, ih]

/-- `withPositions` assigns consecutive positions starting at `n`. -/
theorem withPositions_positions (c : String) :
    ∀ (n : Nat) (l : List StatRow),
      (withPositions c n l).map (·.position) = List.range' n l.length := by
  intro n l
  induction l generalizing n with
  | nil => rfl
  | cons r rs ih => simp [withPositions, List.range'_succ, ih]

/-- `withPositions` keeps the user ids. -/
theorem withPositions_map_user (c : String) (n : Nat) (l : List StatRow) :
    (withPositions c n l).map (·.user_id) = l.map (·.user_id) := by
  calc (withPositions c n l).map (·.user_id)
      = ((withPositions c n l).map toStat).map (·.user_id) := by
        rw [List.map_map]; rfl
    _ = l.map (·.user_id) := by rw [withPositions_map_toStat]

/-- `withPositions` keeps the length. -/
theorem withPositions_length (c : String) (n : Nat) (l : List StatRow) :
    (withPositions c n l).length = l.length := by
  conv_rhs => rw [← withPositions_map_toStat c n l]
  rw [List.length_map]

/-- With every participant registered, the stat rows are exactly the
participants, in order. -/
theorem participantStats_map_user (db : DB) (sd ed : Nat) :
    ∀ ps : List String, (∀ p ∈ ps, (findUser db.users p).isSome) →
      (participantStats db sd ed ps).map (·.user_id) = ps := by
  intro ps
  induction ps with
  | nil => intro _; rfl
  | cons u us ih =>
    intro h
    cases hf : findUser db.users u with
    | none =>
      have := h u (List.mem_cons_self u us)
      rw [hf] at this
      cases this
    | some usr =>
      simp only [participantStats, hf, List.map_cons]
      rw [ih fun p hp => h p (List.mem_cons_of_mem _ hp)]

/-- Every stat row carries the window sum and window count of its own
user. -/
theorem participantStats_mem (db : DB) (sd ed : Nat) :
    ∀ (ps : List String) (r : StatRow), r ∈ participantStats db sd ed ps →
      r.total_score =
          ((windowScores db.scores r.user_id sd ed).map (·.golf_score)).sum ∧
        r.completed_days = (windowScores db.scores r.user_id sd ed).length := by
  intro ps
  induction ps with
  | nil => intro r hr; cases hr
  | cons u us ih =>
    intro r hr
    cases hf : findUser db.users u with
    | none =>
      rw [participantStats, hf] at hr
      exact ih r hr
    | some usr =>
      rw [participantStats, hf] at hr
      rcases List.mem_cons.mp hr with rfl | hr'
      · exact ⟨rfl, rfl⟩
      · exact ih r hr'

/-- C1: for every tournament and viewer, the standings have one row per
(registered, duplicate-free) participant; each row's `total_score` is the
sum of `golf_score` over that user's ledger entries with `puzzle_date`
inside `[start_date, end_date]` and `completed_days` is the count of those
entries regardless of `score_type`; the rows are sorted ascending by
`(total_score, -completed_days)`; positions are 1-based ranks; and a
participant with no window entries still appears (with sum 0 and count 0,
since its window list is empty). -/
theorem standings_correct (db : DB) (tid viewer : String) (t : Tournament)
    (hT : findMainT db.titems tid = some t)
    (hNodup : t.participants.Nodup)
    (hUsers : ∀ p ∈ t.participants, (findUser db.users p).isSome) :
    ((calculate_tournament_standings db tid viewer).map (·.user_id)).Perm
        t.participants ∧
    (∀ row ∈ calculate_tournament_standings db tid viewer,
      row.total_score =
          ((windowScores db.scores row.user_id t.start_date t.end_date).map
            (·.golf_score)).sum ∧
        row.completed_days =
          (windowScores db.scores row.user_id t.start_date t.end_date).length) ∧
    (calculate_tournament_standings db tid viewer).Pairwise standLe ∧
    (calculate_tournament_standings db tid viewer).map (·.position) =
      List.range' 1 (calculate_tournament_standings db tid viewer).length := by
  have hcalc : calculate_tournament_standings db tid viewer =
      withPositions viewer 1 (List.insertionSort statKeyLe
        (participantStats db t.start_date t.end_date t.participants)) := by
    unfold calculate_tournament_standings
    rw [hT]
  refine ⟨?_, ?_, ?_, ?_⟩
  · rw [hcalc, withPositions_map_user]
    have hp := (List.perm_insertionSort statKeyLe
      (participantStats db t.start_date t.end_date t.participants)).map
      (·.user_id)
    rw [participantStats_map_user db t.start_date t.end_date t.participants
      hUsers] at hp
    exact hp
  · intro row hrow
    rw [hcalc] at hrow
    have h1 : toStat row ∈ List.insertionSort statKeyLe
        (participantStats db t.start_date t.end_date t.participants) := by
      rw [← withPositions_map_toStat viewer 1 (List.insertionSort statKeyLe
        (participantStats db t.start_date t.end_date t.participants))]
      exact List.mem_map_of_mem toStat hrow
    rw [List.mem_insertionSort] at h1
    exact participantStats_mem db t.start_date t.end_date _ _ h1
  · rw [hcalc]
    have hs := List.sorted_insertionSort statKeyLe
      (participantStats db t.start_date t.end_date t.participants)
    rw [← withPositions_map_toStat viewer 1 (List.insertionSort statKeyLe
      (participantStats db t.start_date t.end_date t.participants))] at hs
    rw [List.Sorted, List.pairwise_map] at hs
    exact hs
  · rw [hcalc, withPositions_positions, withPositions_length]

/-- Witness for `standings_correct` on the fixture store: the two fixture
participants each get exactly one row. -/
theorem standings_correct_witness :
    findMainT exDB1.titems "t1" = some exT1 ∧ exT1.participants.Nodup ∧
      List.Perm ((calculate_tournament_standings exDB1 "t1" "ua").map
        (fun r => r.user_id)) exT1.participants :=
  ⟨by rfl, by decide,
    (standings_correct exDB1 "t1" "ua" exT1 (by rfl) (by decide) (by decide)).1⟩

/-- Unfolding `findMainT` over a main record. -/
theorem findMainT_cons_main (t : Tournament) (rest : List TItem) (tid : String) :
    findMainT (.main t :: rest) tid =
      if t.tournament_id = tid then some t else findMainT rest tid := by
  unfold findMainT mainTournaments
  rw [List.filterMap_cons]
  by_cases h : t.tournament_id = tid
  · rw [if_pos h]
    simp only []
    rw [List.filter_cons_of_pos (by simpa using h)]
    rfl
  · rw [if_neg h]
    simp only []
    rw [List.filter_cons_of_neg (by simpa using h)]

/-- `findMainT` skips participant bookkeeping records. -/
theorem findMainT_cons_part (a b : String) (c : Nat) (rest : List TItem)
    (tid : String) : findMainT (.part a b c :: rest) tid = findMainT rest tid :=
  rfl

/-- A found main record is in the table and carries the requested id. -/
theorem findMainT_some {items : List TItem} {tid : String} {t : Tournament}
    (h : findMainT items tid = some t) :
    TItem.main t ∈ items ∧ t.tournament_id = tid := by
  induction items with
  | nil => cases h
  | cons it rest ih =>
    cases it with
    | main t' =>
      rw [findMainT_cons_main] at h
      by_cases hid : t'.tournament_id = tid
      · rw [if_pos hid] at h
        injection h with h
        subst h
        exact ⟨List.mem_cons_self _ _, hid⟩
      · rw [if_neg hid] at h
        exact ⟨List.mem_cons_of_mem _ (ih h).1, (ih h).2⟩
    | part a b c =>
      rw [findMainT_cons_part] at h
      exact ⟨List.mem_cons_of_mem _ (ih h).1, (ih h).2⟩

/-- Updating the record with key `tid` rewrites what `findMainT` returns,
provided the update keeps the id. -/
theorem findMainT_updateMainT (items : List TItem) (tid : String)
    (f : Tournament → Tournament)
    (hf : ∀ x : Tournament, x.tournament_id = tid →
      (f x).tournament_id = x.tournament_id) :
    findMainT (updateMainT items tid f) tid = (findMainT items tid).map f := by
  induction items with
  | nil => rfl
  | cons it rest ih =>
    cases it with
    | main t =>
      by_cases h : t.tournament_id = tid
      · rw [show updateMainT (.main t :: rest) tid f =
            .main (f t) :: rest from by simp [updateMainT, h]]
        rw [findMainT_cons_main, if_pos ((hf t h).trans h),
          findMainT_cons_main, if_pos h]
        rfl
      · rw [show updateMainT (.main t :: rest) tid f =
            .main t :: updateMainT rest tid f from by simp [updateMainT, h]]
        rw [findMainT_cons_main, if_neg h, findMainT_cons_main, if_neg h]
        exact ih
    | part a b c =>
      rw [show updateMainT (.part a b c :: rest) tid f =
        .part a b c :: updateMainT rest tid f from rfl]
      rw [findMainT_cons_part, findMainT_cons_part]
      exact ih

/-- Writing a participant bookkeeping record never changes what
`findMainT` returns. -/
theorem findMainT_putPart (items : List TItem) (tid uid : String) (now : Nat)
    (x : String) : findMainT (putPart items tid uid now) x = findMainT items x := by
  induction items with
  | nil => rfl
  | cons it rest ih =>
    cases it with
    | main t =>
      rw [show putPart (.main t :: rest) tid uid now =
        .main t :: putPart rest tid uid now from rfl]
      rw [findMainT_cons_main, findMainT_cons_main]
      by_cases h : t.tournament_id = x
      · rw [if_pos h, if_pos h]
      · rw [if_neg h, if_neg h]
        exact ih
    | part a b c =>
      by_cases h : a = tid ∧ b = uid
      · rw [show putPart (.part a b c :: rest) tid uid now =
          .part tid uid now :: rest from by simp [putPart, h]]
        rw [findMainT_cons_part, findMainT_cons_part]
      · rw [show putPart (.part a b c :: rest) tid uid now =
          .part a b c :: putPart rest tid uid now from by simp [putPart, h]]
        rw [findMainT_cons_part, findMainT_cons_part]
        exact ih

/-- C4: `end_tournament` fails with the forbidden error whenever the
requester is not the creator; fails with the already-ended error when the
creator ends an inactive tournament; and on success stores
`status=ENDED, is_active=false, ended_at=now` and the top-ranked standing's
user id as `winner_user_id` (leaving the stored winner attribute untouched
when the standings are empty), reporting the freshly computed standings. -/
theorem end_tournament_spec (db : DB) (tid uid : String) (now : Nat)
    (t : Tournament) (hT : findMainT db.titems tid = some t) :
    (uid ≠ t.created_by → end_tournament db tid uid now = .error .forbidden) ∧
    (uid = t.created_by → t.is_active = false →
      end_tournament db tid uid now = .error .alreadyEnded) ∧
    (uid = t.created_by → t.is_active = true →
      ∃ db' res, end_tournament db tid uid now = .ok (db', res) ∧
        findMainT db'.titems tid = some
          { t with status := TournamentStatus.ended, is_active := false,
                   ended_at := some now,
                   winner_user_id :=
                     match (calculate_tournament_standings db tid uid).head? with
                     | some w => some w.user_id
                     | none => t.winner_user_id } ∧
        res.final_standings = calculate_tournament_standings db tid uid ∧
        res.winner = (calculate_tournament_standings db tid uid).head? ∧
        res.ended_at = now) := by
  have hfm := findMainT_some hT
  refine ⟨?_, ?_, ?_⟩
  · intro hne
    unfold end_tournament
    simp only [hT]
    rw [if_pos (Ne.symm hne)]
  · intro heq hia
    unfold end_tournament
    simp only [hT]
    rw [if_neg (not_not_intro heq.symm), if_pos hia]
  · intro heq hia
    unfold end_tournament
    simp only [hT]
    rw [if_neg (not_not_intro heq.symm), if_neg (by simp [hia])]
    refine ⟨_, _, rfl, ?_, rfl, rfl, rfl⟩
    exact (findMainT_updateMainT db.titems tid
      (fun _ =>
        { t with
          status := TournamentStatus.ended
          is_active := false
          ended_at := some now
          winner_user_id :=
            match (calculate_tournament_standings db tid uid).head? with
            | some w => some w.user_id
            | none => t.winner_user_id })
      (fun x hx => (hfm.2.trans hx.symm : t.tournament_id = x.tournament_id))).trans
      (by rw [hT]; rfl)

/-- Witness for `end_tournament_spec`: the fixture creator ends the active
fixture tournament successfully. -/
theorem end_tournament_spec_witness :
    findMainT exDB1.titems "t1" = some exT1 ∧
      (end_tournament exDB1 "t1" "ua" 50).isOk = true := by
  obtain ⟨db', res, heq, -, -, -, -⟩ :=
    (end_tournament_spec exDB1 "t1" "ua" 50 exT1 (by rfl)).2.2 rfl rfl
  exact ⟨by rfl, by rw [heq]; rfl⟩

/-- C5 counterexample: soft-deleting the active fixture tournament leaves a
record that never went through the ENDED transition (status still ACTIVE,
`ended_at` none), yet `get_tournament_final_results` succeeds on it instead
of failing with the still-active error, contradicting the claim that it
fails whenever the ENDED transition has not occurred. -/
theorem final_results_counterexample :
    delete_tournament exDB2 "t2" "ua" 30 = .ok exDB2del ∧
      findMainT exDB2del.titems "t2" = some exT2del ∧
      exT2del.status = TournamentStatus.active ∧
      exT2del.ended_at = none ∧ exT2del.is_active = false ∧
      (get_tournament_final_results exDB2del "t2" 40).isOk = true :=
  ⟨rfl, rfl, rfl, rfl, rfl, rfl⟩

/-- C5 amended: `get_tournament_final_results` fails with the still-active
error iff the stored record has `is_active = true`; any record with
`is_active = false` — whether ended or merely soft-deleted — yields
results that recompute the standings live and report the persisted
`winner_user_id` (inside the tournament record) and persisted `ended_at`,
defaulting the reported `ended_at` to the current time when unset. -/
theorem final_results_amended (db : DB) (tid : String) (now : Nat)
    (t : Tournament) (hT : findMainT db.titems tid = some t) :
    (t.is_active = true →
      get_tournament_final_results db tid now = .error .stillActive) ∧
    (t.is_active = false →
      get_tournament_final_results db tid now = .ok
        { tournament_id := tid, tournament := t,
          winner := (calculate_tournament_standings db tid t.created_by).head?,
          final_standings := calculate_tournament_standings db tid t.created_by,
          ended_at := t.ended_at.getD now,
          total_participants := t.participants.length,
          completed_days := t.duration_days }) := by
  constructor
  · intro h
    unfold get_tournament_final_results
    simp only [hT]
    rw [if_pos h]
  · intro h
    unfold get_tournament_final_results
    simp only [hT]
    rw [if_neg (by simp [h])]

/-- Witness for `final_results_amended`: the ended fixture tournament
returns final results. -/
theorem final_results_amended_witness :
    findMainT exDB5.titems "abcdefgh-2222" = some exTEnd ∧
      (get_tournament_final_results exDB5 "abcdefgh-2222" 99).isOk = true := by
  have h := (final_results_amended exDB5 "abcdefgh-2222" 99 exTEnd (by rfl)).2 rfl
  exact ⟨by rfl, by rw [h]; rfl⟩

/-- C6 counterexample: the soft-deleted public fixture tournament
(`is_active = false`) still appears in both the public listing and the
public search, contradicting the claim that every listing operation
excludes soft-deleted tournaments. -/
theorem listings_counterexample :
    exTPub.is_active = false ∧
      (get_public_tournaments exDB3 20).map (fun s => s.tournament_id) = ["p1"] ∧
      (search_public_tournaments exDB3 "Cup" 20).map (fun s => s.tournament_id) =
        ["p1"] :=
  ⟨rfl, rfl, rfl⟩

/-- C6 amended: the per-user listing excludes soft-deleted tournaments and
participant bookkeeping records; the public listing and public search
exclude bookkeeping records (returning only public main tournament
records, for the search ones whose name contains the query), but perform
no soft-deletion filtering. -/
theorem listings_amended (db : DB) (uid q : String) (lim : Nat) :
    (∀ s ∈ get_tournaments db uid,
      s.tournament.is_active = true ∧ TItem.main s.tournament ∈ db.titems) ∧
    (∀ s ∈ get_public_tournaments db lim,
      TItem.main s.tournament ∈ db.titems ∧
        s.tournament.tournament_type = "public") ∧
    (∀ s ∈ search_public_tournaments db q lim,
      TItem.main s.tournament ∈ db.titems ∧
        s.tournament.tournament_type = "public" ∧
        strContains s.tournament.name q = true) := by
  refine ⟨?_, ?_, ?_⟩
  · intro s hs
    unfold get_tournaments at hs
    rw [List.mem_filterMap] at hs
    obtain ⟨tid, htid, hF⟩ := hs
    cases hft : findMainT db.titems tid with
    | none =>
      rw [hft] at hF
      cases hF
    | some t =>
      rw [hft] at hF
      dsimp only at hF
      by_cases hia : t.is_active = true
      · rw [if_pos hia] at hF
        injection hF with hF
        subst hF
        exact ⟨hia, (findMainT_some hft).1⟩
      · rw [if_neg hia] at hF
        cases hF
  · intro s hs
    unfold get_public_tournaments at hs
    rw [List.mem_map] at hs
    obtain ⟨t, ht, hmk⟩ := hs
    subst hmk
    have ht' := List.mem_of_mem_take ht
    rw [List.mem_filterMap] at ht'
    obtain ⟨it, hit, hG⟩ := ht'
    cases it with
    | main t' =>
      dsimp only at hG
      by_cases hty : t'.tournament_type = "public"
      · rw [if_pos hty] at hG
        injection hG with hG
        subst hG
        exact ⟨hit, hty⟩
      · rw [if_neg hty] at hG
        cases hG
    | part a b c => cases hG
  · intro s hs
    unfold search_public_tournaments at hs
    rw [List.mem_map] at hs
    obtain ⟨t, ht, hmk⟩ := hs
    subst hmk
    have ht' := List.mem_of_mem_take ht
    rw [List.mem_filterMap] at ht'
    obtain ⟨it, hit, hG⟩ := ht'
    cases it with
    | main t' =>
      dsimp only at hG
      by_cases hty : t'.tournament_type = "public" ∧ strContains t'.name q = true
      · rw [if_pos hty] at hG
        injection hG with hG
        subst hG
        exact ⟨hit, hty.1, hty.2⟩
      · rw [if_neg hty] at hG
        cases hG
    | part a b c => cases hG

/-- Witness for `listings_amended`: the fixture user's listing contains the
active fixture tournament, whose row satisfies the guarantees. -/
theorem listings_amended_witness :
    (mkUserSummary exDB1 "ua" exT1) ∈ get_tournaments exDB1 "ua" ∧
      (mkUserSummary exDB1 "ua" exT1).tournament.is_active = true ∧
      TItem.main (mkUserSummary exDB1 "ua" exT1).tournament ∈ exDB1.titems := by
  have hmem : (mkUserSummary exDB1 "ua" exT1) ∈ get_tournaments exDB1 "ua" := by
    rw [show get_tournaments exDB1 "ua" = [mkUserSummary exDB1 "ua" exT1] from rfl]
    exact List.mem_cons_self _ _
  have h := (listings_amended exDB1 "ua" "" 20).1 _ hmem
  exact ⟨hmem, h.1, h.2⟩

/-- C7 counterexample: the store's only tournament is soft-deleted, so the
code `abc` matches zero non-deleted tournaments and the claim requires the
join to fail with the not-found error; instead resolution ignores deletion,
resolves to the deleted tournament, and the join succeeds. -/
theorem join_code_counterexample :
    (mainTournaments exDB4.titems).map (fun t => t.is_active) = [false] ∧
      ("abc" : String).length ≤ 8 ∧
      (join_tournament exDB4 "abc" "ub" 7).isOk = true :=
  ⟨rfl, by decide, rfl⟩

/-- C7 amended: for a reference of at most 8 characters, resolution scans
all tournament main records — soft-deleted ones included, bookkeeping
records excluded — for ids starting with the lowercased code: zero matches
fail with the not-found error, two or more fail with the ambiguous-code
error, and a unique match resolves the join to that tournament; joining as
an already-present participant is a successful no-op. -/
theorem join_code_amended (db : DB) (ref uid : String) (now : Nat)
    (hlen : ref.length ≤ 8) :
    (shortIdMatches db.titems ref = [] →
      join_tournament db ref uid now = .error .notFound) ∧
    (∀ x y rest, shortIdMatches db.titems ref = x :: y :: rest →
      join_tournament db ref uid now = .error .ambiguousCode) ∧
    (∀ full t, shortIdMatches db.titems ref = [full] →
      findMainT db.titems full = some t →
      (uid ∈ t.participants → join_tournament db ref uid now = .ok (db, t)) ∧
      (uid ∉ t.participants →
        ∃ db', join_tournament db ref uid now =
            .ok (db', { t with participants := t.participants ++ [uid] }) ∧
          findMainT db'.titems full =
            some { t with participants := t.participants ++ [uid] })) := by
  refine ⟨?_, ?_, ?_⟩
  · intro hm
    unfold join_tournament find_tournament_by_short_id
    rw [hm]
    dsimp only
    rw [if_pos hlen]
  · intro x y rest hm
    unfold join_tournament find_tournament_by_short_id
    rw [hm]
    dsimp only
    rw [if_pos hlen]
  · intro full t hm hT
    unfold join_tournament find_tournament_by_short_id
    rw [hm]
    dsimp only
    rw [if_pos hlen]
    simp only [hT]
    constructor
    · intro hmem
      rw [if_pos hmem]
    · intro hmem
      rw [if_neg hmem]
      refine ⟨_, rfl, ?_⟩
      rw [findMainT_putPart]
      exact (findMainT_updateMainT db.titems full
        (fun x => { x with participants := t.participants ++ [uid] })
        (fun x _ => rfl)).trans (by rw [hT]; rfl)

/-- Witness for `join_code_amended`: the code `abc` uniquely matches the
fixture tournament and the join succeeds. -/
theorem join_code_amended_witness :
    ("abc" : String).length ≤ 8 ∧
      shortIdMatches exDB4.titems "abc" = ["abcdefgh-1111"] ∧
      (join_tournament exDB4 "abc" "ub" 7).isOk = true := by
  obtain ⟨db', heq, -⟩ :=
    ((join_code_amended exDB4 "abc" "ub" 7 (by decide)).2.2 "abcdefgh-1111"
      exTDel rfl rfl).2 (by decide)
  exact ⟨by decide, rfl, by rw [heq]; rfl⟩

/-- C10: joining by full id performs no lifecycle check: for every stored
tournament — whatever its `is_active`, `status`, `end_date` or other state
— the join succeeds and the user ends up in the participant set; only
reference resolution can make `join_tournament` fail. -/
theorem join_no_lifecycle (db : DB) (ref uid : String) (now : Nat)
    (t : Tournament) (hlen : 8 < ref.length)
    (hT : findMainT db.titems ref = some t) :
    ∃ db' rt, join_tournament db ref uid now = .ok (db', rt) ∧
      uid ∈ rt.participants ∧
      ∃ t', findMainT db'.titems ref = some t' ∧ uid ∈ t'.participants := by
  unfold join_tournament
  rw [if_neg (by omega)]
  simp only [hT]
  by_cases hmem : uid ∈ t.participants
  · rw [if_pos hmem]
    exact ⟨db, t, rfl, hmem, t, hT, hmem⟩
  · rw [if_neg hmem]
    refine ⟨_, _, rfl, List.mem_append_right _ (List.mem_singleton_self uid),
      { t with participants := t.participants ++ [uid] }, ?_,
      List.mem_append_right _ (List.mem_singleton_self uid)⟩
    rw [findMainT_putPart]
    exact (findMainT_updateMainT db.titems ref
      (fun x => { x with participants := t.participants ++ [uid] })
      (fun x _ => rfl)).trans (by rw [hT]; rfl)

/-- Witness for `join_no_lifecycle`: joining an ended, inactive fixture
tournament by its full id succeeds. -/
theorem join_no_lifecycle_witness :
    exTEnd.is_active = false ∧ exTEnd.status = TournamentStatus.ended ∧
      8 < ("abcdefgh-2222" : String).length ∧
      (join_tournament exDB5 "abcdefgh-2222" "ub" 9).isOk = true := by
  obtain ⟨db', rt, heq, hmem, -⟩ :=
    join_no_lifecycle exDB5 "abcdefgh-2222" "ub" 9 exTEnd (by decide) (by rfl)
  exact ⟨rfl, rfl, by decide, by rw [heq]; rfl⟩


/-- Membership in the computed active-user set: exactly the users with a
score at or after the cutoff `nowDate - days_back`. -/
theorem mem_get_active_users (db : DB) (nd k : Nat) (u : String) :
    u ∈ get_active_users db nd k ↔
      ∃ s ∈ db.scores, s.user_id = u ∧ nd - k ≤ s.puzzle_date := by
  unfold get_active_users
  rw [List.mem_dedup, List.mem_map]
  constructor
  · rintro ⟨s, hs, rfl⟩
    rw [List.mem_filter] at hs
    exact ⟨s, hs.1, rfl, by simpa using hs.2⟩
  · rintro ⟨s, hs, hu, hd⟩
    exact ⟨s, List.mem_filter.mpr ⟨hs, by simpa using hd⟩, hu⟩

/-- The penalty loop only appends penalty scores at the target date for the
processed users, keeps the id counter fresh, and afterwards every processed
user has a score for the date. -/
theorem penalty_fold_spec (d now : Nat) :
    ∀ (us : List String) (db : DB) (c : Nat),
      (∀ s ∈ db.scores, s.score_id < db.nextId) →
      ∃ added : List Score,
        (us.foldl (penaltyStep d now) (db, c)).1.scores = db.scores ++ added ∧
        (∀ s ∈ added, s.user_id ∈ us ∧ s.puzzle_date = d ∧
          s.score_type = ScoreType.penalty ∧ s.golf_score = 8) ∧
        (∀ s ∈ (us.foldl (penaltyStep d now) (db, c)).1.scores,
          s.score_id < (us.foldl (penaltyStep d now) (db, c)).1.nextId) ∧
        (∀ u ∈ us,
          queryUserDate (us.foldl (penaltyStep d now) (db, c)).1.scores u d ≠ []) := by
  intro us
  induction us with
  | nil =>
    intro db c hfr
    exact ⟨[], by simp, by simp, by simpa using hfr, by simp⟩
  | cons u us ih =>
    intro db c hfr
    rw [List.foldl_cons]
    cases hq : (queryUserDate db.scores u d).isEmpty with
    | true =>
      have hstep : penaltyStep d now (db, c) u =
          ({ db with scores := db.scores ++ [mkPenalty u d now db.nextId],
                     nextId := db.nextId + 1 }, c + 1) := by
        unfold penaltyStep
        dsimp only
        rw [if_pos hq]
        unfold insert_penalty_score
        rw [if_pos hq]
        dsimp only
        rw [putScore_of_fresh (fun t ht => Nat.ne_of_lt (hfr t ht))]
      rw [hstep]
      have hfr₂ : ∀ s ∈ db.scores ++ [mkPenalty u d now db.nextId],
          s.score_id < db.nextId + 1 := by
        intro s hs
        rcases List.mem_append.mp hs with hs' | hs'
        · exact Nat.lt_succ_of_lt (hfr s hs')
        · rw [List.mem_singleton] at hs'
          subst hs'
          exact Nat.lt_succ_self _
      obtain ⟨added₂, hsc, hadd, hfr', hfill⟩ :=
        ih { db with scores := db.scores ++ [mkPenalty u d now db.nextId],
                     nextId := db.nextId + 1 } (c + 1) hfr₂
      refine ⟨mkPenalty u d now db.nextId :: added₂, ?_, ?_, hfr', ?_⟩
      · rw [hsc]
        simp
      · intro s hs
        rcases List.mem_cons.mp hs with rfl | hs'
        · exact ⟨List.mem_cons_self _ _, rfl, rfl, rfl⟩
        · obtain ⟨h1, h2, h3, h4⟩ := hadd s hs'
          exact ⟨List.mem_cons_of_mem _ h1, h2, h3, h4⟩
      · intro v hv
        rcases List.mem_cons.mp hv with rfl | hv'
        · have hpenmem : mkPenalty v d now db.nextId ∈
              (List.foldl (penaltyStep d now)
                ({ db with scores := db.scores ++ [mkPenalty v d now db.nextId],
                           nextId := db.nextId + 1 }, c + 1) us).1.scores := by
            rw [hsc]
            exact List.mem_append_left _
              (List.mem_append_right _ (List.mem_singleton_self _))
          exact List.ne_nil_of_mem
            (List.mem_filter.mpr ⟨hpenmem, by simp [mkPenalty]⟩)
        · exact hfill v hv'
    | false =>
      have hstep : penaltyStep d now (db, c) u = (db, c) := by
        unfold penaltyStep
        dsimp only
        rw [if_neg (by simp [hq])]
      rw [hstep]
      obtain ⟨added, hsc, hadd, hfr', hfill⟩ := ih db c hfr
      refine ⟨added, hsc, ?_, hfr', ?_⟩
      · intro s hs
        obtain ⟨h1, h2, h3, h4⟩ := hadd s hs
        exact ⟨List.mem_cons_of_mem _ h1, h2, h3, h4⟩
      · intro v hv
        rcases List.mem_cons.mp hv with rfl | hv'
        · rw [hsc]
          unfold queryUserDate
          rw [List.filter_append]
          intro hcon
          rcases List.append_eq_nil.mp hcon with ⟨h1, -⟩
          have hnil : queryUserDate db.scores v d = [] := h1
          rw [hnil] at hq
          cases hq
        · exact hfill v hv'

/-- If every listed user already has a score for the date, the penalty loop
changes nothing and counts nothing. -/
theorem penalty_fold_noop (d now : Nat) :
    ∀ (us : List String) (db : DB) (c : Nat),
      (∀ u ∈ us, queryUserDate db.scores u d ≠ []) →
      us.foldl (penaltyStep d now) (db, c) = (db, c) := by
  intro us
  induction us with
  | nil => intro db c _; rfl
  | cons u us ih =>
    intro db c h
    rw [List.foldl_cons]
    have hstep : penaltyStep d now (db, c) u = (db, c) := by
      unfold penaltyStep
      dsimp only
      rw [if_neg (by
        simp only [List.isEmpty_iff]
        exact h u (List.mem_cons_self u us))]
    rw [hstep]
    exact ih db c fun v hv => h v (List.mem_cons_of_mem _ hv)

/-- The count returned by the penalty loop over a duplicate-free user list
is the number of listed users missing a score for the date. -/
theorem penalty_fold_count (d now : Nat) :
    ∀ (us : List String) (db : DB) (c : Nat), us.Nodup →
      (∀ s ∈ db.scores, s.score_id < db.nextId) →
      (us.foldl (penaltyStep d now) (db, c)).2 =
        c + (us.filter (fun u => (queryUserDate db.scores u d).isEmpty)).length := by
  intro us
  induction us with
  | nil => intro db c _ _; simp
  | cons u us ih =>
    intro db c hnd hfr
    rw [List.nodup_cons] at hnd
    rw [List.foldl_cons]
    cases hq : (queryUserDate db.scores u d).isEmpty with
    | true =>
      have hstep : penaltyStep d now (db, c) u =
          ({ db with scores := db.scores ++ [mkPenalty u d now db.nextId],
                     nextId := db.nextId + 1 }, c + 1) := by
        unfold penaltyStep
        dsimp only
        rw [if_pos hq]
        unfold insert_penalty_score
        rw [if_pos hq]
        dsimp only
        rw [putScore_of_fresh (fun t ht => Nat.ne_of_lt (hfr t ht))]
      rw [hstep]
      have hfr₂ : ∀ s ∈ db.scores ++ [mkPenalty u d now db.nextId],
          s.score_id < db.nextId + 1 := by
        intro s hs
        rcases List.mem_append.mp hs with hs' | hs'
        · exact Nat.lt_succ_of_lt (hfr s hs')
        · rw [List.mem_singleton] at hs'
          subst hs'
          exact Nat.lt_succ_self _
      rw [ih { db with scores := db.scores ++ [mkPenalty u d now db.nextId],
                       nextId := db.nextId + 1 } (c + 1) hnd.2 hfr₂]
      have hcong : us.filter (fun v =>
            (queryUserDate (db.scores ++ [mkPenalty u d now db.nextId]) v d).isEmpty) =
          us.filter (fun v => (queryUserDate db.scores v d).isEmpty) := by
        apply List.filter_congr
        intro v hv
        unfold queryUserDate
        rw [List.filter_append, List.filter_cons_of_neg (by
          simp only [decide_eq_true_eq, mkPenalty]
          intro hvu
          rw [← hvu.1] at hv
          exact absurd hv hnd.1)]
        simp
      rw [show queryUserDate ({ db with
            scores := db.scores ++ [mkPenalty u d now db.nextId],
            nextId := db.nextId + 1 } : DB).scores = queryUserDate
            (db.scores ++ [mkPenalty u d now db.nextId]) from rfl]
      rw [hcong, List.filter_cons_of_pos (by simpa using hq), List.length_cons]
      omega
    | false =>
      have hstep : penaltyStep d now (db, c) u = (db, c) := by
        unfold penaltyStep
        dsimp only
        rw [if_neg (by simp [hq])]
      rw [hstep]
      rw [ih db c hnd.2 hfr]
      rw [List.filter_cons_of_neg (by simp [hq])]

/-- C8 counterexample: user `ua` has a ledger entry at date 15, within the
claimed window for `apply_daily_penalties(20)` (15 >= 20 - 7), and no score
for date 20, so by the claim `ua` must receive a penalty insertion; but
when the batch runs on a later calendar day (nowDate 40) its window is
anchored at the invocation date, `ua` is not considered, and nothing is
inserted. -/
theorem penalty_window_counterexample :
    activeUsersSpec exDB6 20 = ["ua"] ∧
      queryUserDate exDB6.scores "ua" 20 = [] ∧
      apply_daily_penalties exDB6 20 40 41 = (exDB6, 0) :=
  ⟨rfl, rfl, rfl⟩

/-- C8 amended: the set of users considered by `apply_daily_penalties(d)`
is the set of users with a ledger entry with `puzzle_date >= nowDate - 7`,
where `nowDate` is the invocation date — this coincides with the claimed
window `puzzle_date >= d - 7` exactly when the batch is invoked with
`d = nowDate`; among the considered users, exactly those lacking a score
for `d` are counted, and each of them receives a penalty score insertion
for `d`. -/
theorem penalty_window_amended (db : DB) (d nd now : Nat)
    (hfr : ∀ s ∈ db.scores, s.score_id < db.nextId) :
    (∀ u, u ∈ get_active_users db nd 7 ↔
      ∃ s ∈ db.scores, s.user_id = u ∧ nd - 7 ≤ s.puzzle_date) ∧
    (nd = d → get_active_users db nd 7 = activeUsersSpec db d) ∧
    (apply_daily_penalties db d nd now).2 =
      ((get_active_users db nd 7).filter
        (fun u => (queryUserDate db.scores u d).isEmpty)).length ∧
    (∀ u ∈ get_active_users db nd 7, (queryUserDate db.scores u d).isEmpty →
      ∃ s ∈ (apply_daily_penalties db d nd now).1.scores,
        s.user_id = u ∧ s.puzzle_date = d ∧ s.score_type = ScoreType.penalty ∧
          s.golf_score = 8) := by
  have hnodup : (get_active_users db nd 7).Nodup := by
    unfold get_active_users
    exact List.nodup_dedup _
  refine ⟨mem_get_active_users db nd 7, ?_, ?_, ?_⟩
  · intro h
    subst h
    rfl
  · unfold apply_daily_penalties
    simpa using penalty_fold_count d now (get_active_users db nd 7) db 0 hnodup hfr
  · intro u hu hempty
    obtain ⟨added, hsc, hadd, -, hfill⟩ :=
      penalty_fold_spec d now (get_active_users db nd 7) db 0 hfr
    have hne := hfill u hu
    rw [hsc] at hne
    have hemp : queryUserDate db.scores u d = [] := List.isEmpty_iff.mp hempty
    unfold queryUserDate at hne hemp
    rw [List.filter_append, hemp, List.nil_append] at hne
    obtain ⟨s, hs⟩ := List.exists_mem_of_ne_nil _ hne
    rw [List.mem_filter, decide_eq_true_eq] at hs
    refine ⟨s, ?_, hs.2.1, hs.2.2, (hadd s hs.1).2.2.1, (hadd s hs.1).2.2.2⟩
    show s ∈ ((get_active_users db nd 7).foldl (penaltyStep d now) (db, 0)).1.scores
    rw [hsc]
    exact List.mem_append_right _ hs.1

/-- Witness for `penalty_window_amended`: on the fixture store the batch
run for the current date counts exactly one missing user. -/
theorem penalty_window_amended_witness :
    get_active_users exDB6 16 7 = ["ua"] ∧
      (apply_daily_penalties exDB6 16 16 17).2 = 1 := by
  have h := (penalty_window_amended exDB6 16 16 17 (by decide)).2.2.1
  exact ⟨rfl, by rw [h]; rfl⟩

/-- C9: `apply_daily_penalties` is idempotent per date: running it twice
for the same date `d` on the same calendar day with no intervening score
changes makes the second run a no-op returning 0; `insert_penalty_score`
inserts only when the slot is free and returns none as a no-op when a
score already exists. -/
theorem penalty_idempotent (db : DB) (d nd now now₂ now₃ : Nat) (u₀ : String)
    (db₁ : DB) (c : Nat)
    (hfr : ∀ s ∈ db.scores, s.score_id < db.nextId)
    (h1 : apply_daily_penalties db d nd now = (db₁, c)) :
    apply_daily_penalties db₁ d nd now₂ = (db₁, 0) ∧
      (queryUserDate db.scores u₀ d ≠ [] →
        insert_penalty_score db u₀ d now₃ = (db, none)) := by
  constructor
  · obtain ⟨added, hsc, hadd, -, hfill⟩ :=
      penalty_fold_spec d now (get_active_users db nd 7) db 0 hfr
    unfold apply_daily_penalties at h1 ⊢
    rw [h1] at hsc hfill
    dsimp only at hsc hfill
    have hall : ∀ u ∈ get_active_users db₁ nd 7,
        queryUserDate db₁.scores u d ≠ [] := by
      intro u hu
      rw [mem_get_active_users] at hu
      obtain ⟨s, hs, hsu, hsd⟩ := hu
      rw [hsc] at hs
      rcases List.mem_append.mp hs with hs' | hs'
      · exact hfill u ((mem_get_active_users db nd 7 u).mpr ⟨s, hs', hsu, hsd⟩)
      · exact hfill u (hsu ▸ (hadd s hs').1)
    exact penalty_fold_noop d now₂ (get_active_users db₁ nd 7) db₁ 0 hall
  · intro hne
    unfold insert_penalty_score
    rw [if_neg (by simpa [List.isEmpty_iff] using hne)]

/-- Witness for `penalty_idempotent`: one penalty is inserted on the first
run over the fixture store, and the second run for the same date returns
0 and changes nothing. -/
theorem penalty_idempotent_witness :
    apply_daily_penalties exDB6 16 16 17 = (exDB6P, 1) ∧
      apply_daily_penalties exDB6P 16 16 33 = (exDB6P, 0) := by
  have h := penalty_idempotent exDB6 16 16 17 33 99 "ua" exDB6P 1
    (by decide) (by rfl)
  exact ⟨by rfl, h.1⟩
